import Mathlib

/-!
Verification of the "latest" resolution algorithm and tag-format matching
engine of the git-action-tag-info action.

The development is a shallow embedding of:
  * `src/format-matcher.ts` (`isSimplePattern`, `convertSimplePatternToRegex`,
    `isRegexPattern`, `extractPrefix`, `matchTagFormat`, `filterTagsByFormat`);
  * `src/tag-resolver.ts` (`filterTagsWithFallback`, `resolveLatestTag`).

Strings are modelled by Lean `String` and processed through their `List Char`
code-point representation (tag names in this domain are ASCII, where the
JS UTF-16 code-unit order and the code-point order coincide).

The JavaScript `RegExp` engine is only exercised concretely by the code on the
regexes produced by `convertSimplePatternToRegex`; those regexes use just
literal characters, the unescaped `.` wildcard and `\d+`, and are modelled
exactly by `reMatch` below.  The general user-supplied-regex branch of
`matchTagFormat` delegates to an arbitrary engine, modelled by the section
parameter `regexTest` (an invalid regex, for which the source returns `false`
from the `catch`, is a `regexTest` that is constantly false on that pattern).
-/

section FormatMatcher

-- `regexTest r s` abstracts `new RegExp(r).test(s)` for the user-supplied
-- regex branch of `matchTagFormat`; every theorem below holds for an arbitrary
-- engine because the claims only exercise the simple-pattern and literal
-- branches, which do not consult it.
variable (regexTest : String → String → Bool)

/-- Is the character one of the placeholder letters `X`/`x`
(the source tests with the case-insensitive regex flag `i`)? -/
def isXChar (c : Char) : Bool := c = 'X' || c = 'x'

/-- Recognizer for the `(\.X)+` part of `/^v?X(\.X)+$/i`:
one or more groups of a dot followed by an `X`/`x`, consuming the whole list. -/
def dotXGroups : List Char → Bool
  | '.' :: c :: rest => isXChar c && (rest.isEmpty || dotXGroups rest)
  | _ => false

/-- Recognizer for `X(\.X)+` (case-insensitive `X`), consuming the whole list. -/
def simpleTail (l : List Char) : Bool :=
  match l with
  | c :: rest => isXChar c && dotXGroups rest
  | [] => false

/-- `isSimplePattern` from `format-matcher.ts`: tests the format against
`/^v?X(\.X)+$/i` (optional `v`/`V` prefix, then at least two dot-separated
`X` placeholders). -/
def isSimplePattern (f : String) : Bool :=
  match f.data with
  | [] => false
  | c :: rest => if c = 'v' || c = 'V' then simpleTail rest else simpleTail (c :: rest)

/-- One token of the regex produced by `convertSimplePatternToRegex`. -/
inductive RegexTok where
  | lit (c : Char)
  | anyChar
  | digits
deriving DecidableEq, Repr

/-- `convertSimplePatternToRegex` from `format-matcher.ts`, as a token list.
The source runs `format.replace(/X/gi, '\\d+')` and wraps the result in
`^...$`: only `X`/`x` is substituted (by `\d+`); every other character is
copied into the regex source verbatim and unescaped.  In particular a `.` of
the format becomes the regex wildcard `.` (matching any character), not a
literal dot, and `v`/`V` become literal characters. -/
def simpleToks (f : String) : List RegexTok :=
  f.data.map (fun c =>
    if isXChar c then RegexTok.digits
    else if c = '.' then RegexTok.anyChar
    else RegexTok.lit c)

/-- Anchored matching of a token sequence against a whole character list:
`reMatch toks s` holds iff `s` decomposes according to `toks`, with
`digits` consuming one or more digit characters (the `\d+` of the compiled
regex, including backtracking). -/
def reMatch : List RegexTok → List Char → Bool
  | [], [] => true
  | [], _ :: _ => false
  | RegexTok.lit _ :: _, [] => false
  | RegexTok.lit c :: ts, d :: ds => decide (c = d) && reMatch ts ds
  | RegexTok.anyChar :: _, [] => false
  | RegexTok.anyChar :: ts, _ :: ds => reMatch ts ds
  | RegexTok.digits :: _, [] => false
  | RegexTok.digits :: ts, d :: ds =>
      d.isDigit && (reMatch ts ds || reMatch (RegexTok.digits :: ts) ds)

/-- The regex metacharacters checked by `isRegexPattern`:
`/[()[\]{}*+?|\\]/`. -/
def regexSpecialChars : List Char :=
  ['(', ')', '[', ']', '\x7b', '\x7d', '*', '+', '?', '|', '\\']

/-- `isRegexPattern` from `format-matcher.ts`: starts with `^` or `/`, or
contains one of the regex special characters. -/
def isRegexPattern (f : String) : Bool :=
  (match f.data with
   | c :: _ => c = '^' || c = '/'
   | [] => false)
  || f.data.any (fun d => regexSpecialChars.contains d)

/-- Longest common-digit prefix: splits a character list into its leading run
of digit characters and the rest. -/
def takeDigits : List Char → List Char × List Char
  | [] => ([], [])
  | c :: rest =>
    if c.isDigit then
      let p := takeDigits rest
      (c :: p.1, p.2)
    else ([], c :: rest)

/-- Greedy matching of `(?:\.\d+)*`: consumes as many `.`-digits groups as
possible and returns the consumed characters.  The first argument is fuel;
each consumed group removes at least two characters, so fuel equal to the
list length always suffices. -/
def dotGroups : Nat → List Char → List Char
  | 0, _ => []
  | n + 1, cs =>
    match cs with
    | '.' :: rest =>
      let p := takeDigits rest
      if p.1.isEmpty then [] else '.' :: p.1 ++ dotGroups n p.2
    | _ => []

/-- `extractPrefix` from `format-matcher.ts`: the longest leading substring of
the tag name matching `^(v?\d+(?:\.\d+)*)`, or `""` when there is none
(the regex has no `i` flag, so only a lowercase `v` can start the prefix;
if the optional `v` is not followed by a digit the whole regex fails, since
a `v` can never start `\d+`). -/
def numericPrefixOf (tagName : String) : String :=
  let attempt := fun (l : List Char) =>
    let p := takeDigits l
    if p.1.isEmpty then [] else p.1 ++ dotGroups p.2.length p.2
  match tagName.data with
  | 'v' :: rest =>
    let a := attempt rest
    if a.isEmpty then "" else String.mk ('v' :: a)
  | cs => String.mk (attempt cs)

/-- The slash stripping `format.replace(/^\/|\/$/g, '')` of the regex branch
of `matchTagFormat`: removes one leading and one trailing slash. -/
def stripSlashes (f : String) : String :=
  let l1 := match f.data with
    | '/' :: rest => rest
    | l => l
  String.mk (if l1.getLast? = some '/' then l1.dropLast else l1)

/-- The anchor coercion of the regex branch of `matchTagFormat`: prepend `^`
when absent, then append `$` when absent. -/
def coerceAnchors (s : String) : String :=
  let s1 := match s.data with
    | '^' :: _ => s
    | _ => "^" ++ s
  match s1.data.getLast? with
  | some '$' => s1
  | _ => s1 ++ "$"

/-- `matchTagFormat` from `format-matcher.ts`: empty format or empty name
never match; a simple pattern is compiled by `convertSimplePatternToRegex`
and tried on the full name, then on its numeric prefix; a regex pattern is
slash-stripped, anchored and handed to the engine the same way; anything
else is a literal, matched by exact string equality only. -/
def matchTagFormat (tagName format : String) : Bool :=
  if format = "" || tagName = "" then false
  else if isSimplePattern format then
    let toks := simpleToks format
    reMatch toks tagName.data ||
      (let p := numericPrefixOf tagName
       decide (p ≠ "") && reMatch toks p.data)
  else if isRegexPattern format then
    let r := coerceAnchors (stripSlashes format)
    regexTest r tagName ||
      (let p := numericPrefixOf tagName
       decide (p ≠ "") && regexTest r p)
  else decide (tagName = format)

/-- `filterTagsByFormat` from `format-matcher.ts`: an empty format is a
no-op; otherwise keep the names accepted by `matchTagFormat`, preserving
order. -/
def filterTagsByFormat (tagNames : List String) (format : String) : List String :=
  if format = "" then tagNames
  else tagNames.filter (fun t => matchTagFormat regexTest t format)

end FormatMatcher

section SemVer

/-- Splits a character list on a separator character (used instead of
`String.splitOn`, which does not reduce in the kernel). -/
def splitOnChar (sep : Char) : List Char → List (List Char)
  | [] => [[]]
  | c :: rest =>
    let r := splitOnChar sep rest
    if c = sep then [] :: r
    else
      match r with
      | g :: gs => (c :: g) :: gs
      | [] => [[c]]

/-- Numeric value of a nonempty all-digit character list, `none` otherwise. -/
def natFromDigits (cs : List Char) : Option Nat :=
  if cs.isEmpty || cs.any (fun c => !c.isDigit) then none
  else some (cs.foldl (fun acc c => acc * 10 + (c.toNat - 48)) 0)

/-- Modelled from the spec: the repository's `./semver` module (`isSemver`,
`sortTagsBySemver`) is absent from the sources (only its callers in
`tag-resolver.ts` are present).  Per the spec, a semver-like name is a dotted
numeric `major.minor.patch` core, optionally prefixed `v`, optionally followed
by `-` pre-release identifiers and `+` build metadata (build metadata is
ignored for precedence).  `parseSemVerChars` returns
`(major, minor, patch, pre-release identifiers)`. -/
def parseSemVerChars (cs0 : List Char) : Option (Nat × Nat × Nat × List (List Char)) :=
  let cs := match cs0 with
    | 'v' :: rest => rest
    | l => l
  let beforeBuild := cs.takeWhile (fun c => c ≠ '+')
  let core := beforeBuild.takeWhile (fun c => c ≠ '-')
  let hasPre := core.length < beforeBuild.length
  let preStr := beforeBuild.drop (core.length + 1)
  match splitOnChar '.' core with
  | [a, b, c] =>
    match natFromDigits a, natFromDigits b, natFromDigits c with
    | some ma, some mi, some pa =>
      if hasPre then
        let ids := splitOnChar '.' preStr
        if ids.any (fun id => id.isEmpty) then none
        else some (ma, mi, pa, ids)
      else some (ma, mi, pa, [])
    | _, _, _ => none
  | _ => none

/-- Modelled from the spec: `isSemver` of the absent `./semver` module — a
name is semver-like iff it parses. -/
def isSemver (s : String) : Bool := (parseSemVerChars s.data).isSome

/-- Three-way comparison of naturals as an `Ordering`. -/
def cmpN (m n : Nat) : Ordering :=
  if m < n then Ordering.lt else if n < m then Ordering.gt else Ordering.eq

/-- Lexicographic three-way comparison of character lists by code point
(ASCII comparison of alphanumeric pre-release identifiers). -/
def cmpChars : List Char → List Char → Ordering
  | [], [] => Ordering.eq
  | [], _ :: _ => Ordering.lt
  | _ :: _, [] => Ordering.gt
  | a :: as, b :: bs =>
    if a.toNat < b.toNat then Ordering.lt
    else if b.toNat < a.toNat then Ordering.gt
    else cmpChars as bs

/-- Modelled from the spec: comparison of single pre-release identifiers —
numeric identifiers compare numerically and sort before alphanumeric ones;
alphanumeric identifiers compare in ASCII order. -/
def cmpId (a b : List Char) : Ordering :=
  match natFromDigits a, natFromDigits b with
  | some m, some n => cmpN m n
  | some _, none => Ordering.lt
  | none, some _ => Ordering.gt
  | none, none => cmpChars a b

/-- Modelled from the spec: identifier-by-identifier comparison of pre-release
identifier lists; a shorter list that is a prefix of a longer one sorts
first. -/
def cmpIdList : List (List Char) → List (List Char) → Ordering
  | [], [] => Ordering.eq
  | [], _ :: _ => Ordering.lt
  | _ :: _, [] => Ordering.gt
  | a :: as, b :: bs =>
    match cmpId a b with
    | Ordering.eq => cmpIdList as bs
    | o => o

/-- Modelled from the spec: semver precedence — numeric field-by-field on
`major.minor.patch`; a version with pre-release identifiers sorts before the
same version without them; pre-release lists compare
identifier-by-identifier. -/
def cmpSemVer (x y : Nat × Nat × Nat × List (List Char)) : Ordering :=
  match cmpN x.1 y.1 with
  | Ordering.eq =>
    match cmpN x.2.1 y.2.1 with
    | Ordering.eq =>
      match cmpN x.2.2.1 y.2.2.1 with
      | Ordering.eq =>
        match x.2.2.2, y.2.2.2 with
        | [], [] => Ordering.eq
        | [], _ :: _ => Ordering.gt
        | _ :: _, [] => Ordering.lt
        | p, q => cmpIdList p q
      | o => o
    | o => o
  | o => o

/-- Total three-way semver comparison of names (non-parsing names sort
below parsing ones; `sortTagsBySemver` is only applied to names accepted by
`isSemver`, so that case does not arise in the resolver). -/
def cmpSemVerStr (a b : String) : Ordering :=
  match parseSemVerChars a.data, parseSemVerChars b.data with
  | some x, some y => cmpSemVer x y
  | some _, none => Ordering.gt
  | none, some _ => Ordering.lt
  | none, none => Ordering.eq

/-- Modelled from the spec: `sortTagsBySemver` of the absent `./semver`
module — sorts names by semver precedence descending (highest first). -/
def sortTagsBySemver (tags : List String) : List String :=
  tags.mergeSort (fun a b => cmpSemVerStr a b ≠ Ordering.lt)

end SemVer

section Resolver

/-- Is `n` a prefix of `h`?  (Executable, kernel-reducible.) -/
def listPrefixOf : List Char → List Char → Bool
  | [], _ => true
  | _ :: _, [] => false
  | a :: as, b :: bs => decide (a = b) && listPrefixOf as bs

/-- Is `n` a contiguous sublist of `h`?  (Executable, kernel-reducible.) -/
def listInfixB (n : List Char) : List Char → Bool
  | [] => listPrefixOf n []
  | b :: bs => listPrefixOf n (b :: bs) || listInfixB n bs

/-- JavaScript `s.includes(pat)`: `pat` occurs contiguously in `s`. -/
def strIncludes (s pat : String) : Bool := listInfixB pat.data s.data

/-- Decimal digit character for `n < 10`. -/
def digitChar (n : Nat) : Char := Char.ofNat (48 + n)

/-- Decimal digits of `n`; the first argument is fuel (`n + 1` suffices). -/
def natToStrAux : Nat → Nat → List Char
  | 0, _ => []
  | f + 1, n => if n < 10 then [digitChar n] else natToStrAux f (n / 10) ++ [digitChar (n % 10)]

/-- Decimal rendering of a natural number, as JavaScript template
interpolation renders an array length. -/
def natToStr (n : Nat) : String := String.mk (natToStrAux (n + 1) n)

/-- `` `"${p}"` `` — a pattern wrapped in double quotes. -/
def quoteStr (p : String) : String := "\"" ++ p ++ "\""

/-- `attemptedPatterns.map((p) => `"${p}"`).join(', ')` from
`filterTagsWithFallback`. -/
def joinQuoted : List String → String
  | [] => ""
  | [p] => quoteStr p
  | p :: rest => quoteStr p ++ ", " ++ joinQuoted rest

/-- The pattern-exhaustion error message thrown by `filterTagsWithFallback`
when every pattern matched nothing (at that point `attemptedPatterns` holds
all patterns, in order). -/
def exhaustionMsg (patterns : List String) : String :=
  "No tags found matching any format pattern: [" ++ joinQuoted patterns
    ++ "]. Tried " ++ natToStr patterns.length ++ " pattern(s) in fallback order."

/-- A `(name, date)` candidate as returned by `getAllTags`/`getAllReleases`;
`date` is `""` when unknown. -/
structure TagItem where
  name : String
  date : String
deriving DecidableEq, Repr

/-- The Platform Data Source as the resolver consumes it: each fetch either
yields a list or fails with an error message (a thrown `Error`). -/
structure PlatformAPI where
  getAllTagNames : Except String (List String)
  getAllTags : Except String (List TagItem)
  getAllReleases : Except String (List TagItem)

/-- The `itemType` argument of `resolveLatestTag`. -/
inductive ItemType where
  | tags
  | release
deriving DecidableEq, Repr

/-- `itemType === 'release' ? 'release' : 'tag'`. -/
def itemLabel : ItemType → String
  | ItemType.tags => "tag"
  | ItemType.release => "release"

/-- The `tagFormat?: string | string[]` argument of `resolveLatestTag`. -/
inductive TagFormatArg where
  | absent
  | single (s : String)
  | list (l : List String)
deriving DecidableEq, Repr

/-- `Array.isArray(tagFormat) ? tagFormat : tagFormat ? [tagFormat] : undefined`:
an array (even an empty one) is kept as is; a non-empty string becomes a
one-element list; an empty string or an absent argument means no filtering. -/
def normalizeFormat : TagFormatArg → Option (List String)
  | TagFormatArg.absent => none
  | TagFormatArg.single s => if s = "" then none else some [s]
  | TagFormatArg.list l => some l

section WithEngine

variable (regexTest : String → String → Bool)

/-- The pattern loop of `filterTagsWithFallback` from `tag-resolver.ts`:
the first pattern whose filtered list is non-empty wins and is returned at
once; `none` when every pattern matched nothing. -/
def fallbackGo (tagNames : List String) : List String → Option (List String)
  | [] => none
  | p :: ps =>
    let filtered := filterTagsByFormat regexTest tagNames p
    if filtered.length > 0 then some filtered else fallbackGo tagNames ps

/-- `filterTagsWithFallback` from `tag-resolver.ts`: try the patterns in
order; return the first non-empty filtered list, or throw the
pattern-exhaustion error listing every attempted pattern. -/
def filterTagsWithFallback (tagNames patterns : List String) :
    Except String (List String) :=
  match fallbackGo regexTest tagNames patterns with
  | some f => Except.ok f
  | none => Except.error (exhaustionMsg patterns)

/-- Code-point lexicographic order on character lists: the order JavaScript's
default `Array.prototype.sort` uses on (ASCII) strings. -/
def charListLe : List Char → List Char → Bool
  | [], _ => true
  | _ :: _, [] => false
  | a :: as, b :: bs =>
    if a.toNat = b.toNat then charListLe as bs else decide (a.toNat < b.toNat)

/-- `filteredItems.map((t) => t.name).sort()` — default ascending lexical
sort of the names. -/
def sortLexAsc (names : List String) : List String :=
  names.mergeSort (fun a b => charListLe a.data b.data)

/-- `itemsWithDates.sort((a, b) => dateB - dateA)` — sort descending by the
parsed date, where `parseDate` abstracts `new Date(d).getTime()` (an
external JavaScript built-in). -/
def sortByDateDesc (parseDate : String → Int) (items : List TagItem) : List TagItem :=
  items.mergeSort (fun a b => decide (parseDate b.date ≤ parseDate a.date))

/-- Lines 264-295 of `tag-resolver.ts`: the selection policy applied to the
already filtered candidates of the full dated fetch — semver names first
(highest by `sortTagsBySemver`), else the most recent non-empty date, else
the last name of the ascending lexical sort.  (On an empty list the source
would yield `undefined`; the defaults `""` of `headD`/`getLastD` are never
reached on the non-empty lists the resolver passes in.) -/
def selectLatest (parseDate : String → Int) (filteredItems : List TagItem) : String :=
  let semverItems := filteredItems.filter (fun it => isSemver it.name)
  if semverItems.length > 0 then
    (sortTagsBySemver (semverItems.map TagItem.name)).headD ""
  else
    let itemsWithDates := filteredItems.filter (fun it => it.date ≠ "")
    if itemsWithDates.length > 0 then
      ((sortByDateDesc parseDate itemsWithDates).headD ⟨"", ""⟩).name
    else
      (sortLexAsc (filteredItems.map TagItem.name)).getLastD ""

/-- The body of the `try` block of the fast path of `resolveLatestTag`
(lines 207-234): fetch names only, fail on an empty repository, filter with
fallback, and return the highest semver name when any name is semver-like;
`ok none` means "no semver names, fall through to the dated fetch". -/
def fastPath (api : PlatformAPI) (fps : Option (List String)) :
    Except String (Option String) :=
  match api.getAllTagNames with
  | Except.error e => Except.error e
  | Except.ok itemNames =>
    if itemNames.length = 0 then Except.error "No tags found in repository"
    else
      match
        (match fps with
         | some ps => filterTagsWithFallback regexTest itemNames ps
         | none => Except.ok itemNames) with
      | Except.error e => Except.error e
      | Except.ok filtered =>
        let semverItems := filtered.filter (fun n => isSemver n)
        if semverItems.length > 0 then
          Except.ok (some ((sortTagsBySemver semverItems).headD ""))
        else Except.ok none

/-- Lines 246-295 of `tag-resolver.ts`: the full dated fetch — fetch
candidates with dates, fail on an empty repository, filter with fallback
(restricting the dated list to the surviving names), then select per
`selectLatest`. -/
def fullPath (parseDate : String → Int) (api : PlatformAPI)
    (fps : Option (List String)) (itemType : ItemType) : Except String String :=
  match (match itemType with
         | ItemType.tags => api.getAllTags
         | ItemType.release => api.getAllReleases) with
  | Except.error e => Except.error e
  | Except.ok allItems =>
    if allItems.length = 0 then
      Except.error ("No " ++ itemLabel itemType ++ "s found in repository")
    else
      match
        (match fps with
         | some ps =>
           match filterTagsWithFallback regexTest (allItems.map TagItem.name) ps with
           | Except.error e => Except.error e
           | Except.ok filteredNames =>
             Except.ok (allItems.filter (fun it => filteredNames.contains it.name))
         | none => Except.ok allItems) with
      | Except.error e => Except.error e
      | Except.ok filteredItems => Except.ok (selectLatest parseDate filteredItems)

/-- `resolveLatestTag` from `tag-resolver.ts`.  For tags the fast path is
attempted first; a thrown error is re-thrown only when its message contains
the substring `'No tags found matching format pattern'` (the source's
`error.message.includes(...)` check), otherwise a warning is logged and the
resolver falls through to the full dated fetch.  For releases the full dated
fetch is taken directly. -/
def resolveLatestTag (parseDate : String → Int) (api : PlatformAPI)
    (tagFormat : TagFormatArg) (itemType : ItemType) : Except String String :=
  let fps := normalizeFormat tagFormat
  match itemType with
  | ItemType.release => fullPath regexTest parseDate api fps ItemType.release
  | ItemType.tags =>
    match fastPath regexTest api fps with
    | Except.ok (some latest) => Except.ok latest
    | Except.ok none => fullPath regexTest parseDate api fps ItemType.tags
    | Except.error e =>
      if strIncludes e "No tags found matching format pattern" then Except.error e
      else fullPath regexTest parseDate api fps ItemType.tags

end WithEngine

end Resolver

section SortLemmas

/-- The last element (with default) of a non-empty list is a member. -/
lemma getLastD_mem {α : Type} : ∀ (l : List α), l ≠ [] → ∀ d : α, l.getLastD d ∈ l := by
  intro l
  induction l with
  | nil => intro h; exact absurd rfl h
  | cons a t ih =>
    intro _ d
    rw [List.getLastD_cons]
    cases t with
    | nil => simp
    | cons b t' => exact List.mem_cons_of_mem a (ih (by simp) a)

/-- In a list pairwise-ordered by a reflexive relation, every element is
related to the last element. -/
lemma pairwise_rel_getLastD {α : Type} {R : α → α → Prop} (hrefl : ∀ a, R a a) :
    ∀ (l : List α), l.Pairwise R → l ≠ [] → ∀ (d : α) (x : α), x ∈ l → R x (l.getLastD d) := by
  intro l
  induction l with
  | nil => intro _ h; exact absurd rfl h
  | cons a t ih =>
    intro hp _ d x hx
    rw [List.getLastD_cons]
    have ha : ∀ y ∈ t, R a y := fun y hy => List.rel_of_pairwise_cons hp hy
    have hpt : t.Pairwise R := hp.of_cons
    cases t with
    | nil =>
      simp only [List.mem_singleton] at hx
      simp only [List.getLastD_nil]
      rw [hx]
      exact hrefl a
    | cons b t' =>
      rcases List.mem_cons.mp hx with h | h
      · subst h
        exact ha _ (getLastD_mem (b :: t') (by simp) x)
      · exact ih hpt (by simp) x _ h

/-- The head (with default) of `mergeSort` of a non-empty list is a member
and, for `le` transitive and total, is `le`-below every element. -/
lemma mergeSort_headD_le {α : Type} (le : α → α → Bool)
    (htrans : ∀ a b c, le a b = true → le b c = true → le a c = true)
    (htotal : ∀ a b, (le a b || le b a) = true)
    (l : List α) (hne : l ≠ []) (d : α) :
    (l.mergeSort le).headD d ∈ l ∧ ∀ x ∈ l, le ((l.mergeSort le).headD d) x = true := by
  have hperm := List.mergeSort_perm l le
  have hsorted := List.sorted_mergeSort htrans htotal l
  have hrefl : ∀ a : α, le a a = true := by
    intro a
    have := htotal a a
    simpa using this
  have hne' : l.mergeSort le ≠ [] := by
    intro h
    have := hperm.length_eq
    rw [h] at this
    exact hne (List.eq_nil_of_length_eq_zero this.symm)
  cases hs : l.mergeSort le with
  | nil => exact absurd hs hne'
  | cons h t =>
    rw [hs] at hperm hsorted
    constructor
    · simpa using hperm.mem_iff.mp (List.mem_cons_self h t)
    · intro x hx
      have hx' : x ∈ h :: t := hperm.mem_iff.mpr hx
      simp only [List.headD_cons]
      rcases List.mem_cons.mp hx' with h1 | h1
      · subst h1; exact hrefl x
      · exact List.rel_of_pairwise_cons hsorted h1

/-- The last element (with default) of `mergeSort` of a non-empty list is a
member and, for `le` transitive and total, is `le`-above every element. -/
lemma mergeSort_getLastD_le {α : Type} (le : α → α → Bool)
    (htrans : ∀ a b c, le a b = true → le b c = true → le a c = true)
    (htotal : ∀ a b, (le a b || le b a) = true)
    (l : List α) (hne : l ≠ []) (d : α) :
    (l.mergeSort le).getLastD d ∈ l ∧
      ∀ x ∈ l, le x ((l.mergeSort le).getLastD d) = true := by
  have hperm := List.mergeSort_perm l le
  have hsorted := List.sorted_mergeSort htrans htotal l
  have hrefl : ∀ a : α, le a a = true := by
    intro a
    have := htotal a a
    simpa using this
  have hne' : l.mergeSort le ≠ [] := by
    intro h
    have := hperm.length_eq
    rw [h] at this
    exact hne (List.eq_nil_of_length_eq_zero this.symm)
  constructor
  · exact hperm.mem_iff.mp (getLastD_mem _ hne' d)
  · intro x hx
    exact pairwise_rel_getLastD hrefl (l.mergeSort le) hsorted hne' d x
      (hperm.mem_iff.mpr hx)

end SortLemmas

section StringLemmas

lemma charListLe_total : ∀ a b : List Char, (charListLe a b || charListLe b a) = true := by
  intro a
  induction a with
  | nil => intro b; simp [charListLe]
  | cons x xs ih =>
    intro b
    cases b with
    | nil => simp [charListLe]
    | cons y ys =>
      simp only [charListLe]
      by_cases h : x.toNat = y.toNat
      · rw [if_pos h, if_pos h.symm]
        exact ih ys
      · rw [if_neg h, if_neg (fun hh => h hh.symm)]
        simp only [Bool.or_eq_true, decide_eq_true_eq]
        omega

lemma charListLe_trans :
    ∀ a b c : List Char, charListLe a b = true → charListLe b c = true →
      charListLe a c = true := by
  intro a
  induction a with
  | nil => intro b c _ _; simp [charListLe]
  | cons x xs ih =>
    intro b c h1 h2
    cases b with
    | nil => simp [charListLe] at h1
    | cons y ys =>
      cases c with
      | nil => simp [charListLe] at h2
      | cons z zs =>
        simp only [charListLe] at h1 h2 ⊢
        by_cases hxy : x.toNat = y.toNat
        · rw [if_pos hxy] at h1
          by_cases hyz : y.toNat = z.toNat
          · rw [if_pos hyz] at h2
            rw [if_pos (hxy.trans hyz)]
            exact ih ys zs h1 h2
          · rw [if_neg hyz] at h2
            have hlt : y.toNat < z.toNat := by simpa using h2
            rw [if_neg (by omega : ¬x.toNat = z.toNat)]
            simp only [decide_eq_true_eq]
            omega
        · rw [if_neg hxy] at h1
          have hlt1 : x.toNat < y.toNat := by simpa using h1
          by_cases hyz : y.toNat = z.toNat
          · rw [if_neg (by omega : ¬x.toNat = z.toNat)]
            simp only [decide_eq_true_eq]
            omega
          · rw [if_neg hyz] at h2
            have hlt2 : y.toNat < z.toNat := by simpa using h2
            rw [if_neg (by omega : ¬x.toNat = z.toNat)]
            simp only [decide_eq_true_eq]
            omega

lemma listPrefixOf_append (l t : List Char) : listPrefixOf l (l ++ t) = true := by
  induction l with
  | nil => rfl
  | cons a as ih => simp [listPrefixOf, ih]

lemma listInfixB_of_listPrefixOf (n h : List Char) (hp : listPrefixOf n h = true) :
    listInfixB n h = true := by
  cases h with
  | nil => simpa [listInfixB] using hp
  | cons b bs => simp [listInfixB, hp]

lemma listInfixB_append_left (pre n h : List Char) (hi : listInfixB n h = true) :
    listInfixB n (pre ++ h) = true := by
  induction pre with
  | nil => simpa
  | cons a as ih => simp [listInfixB, ih]

lemma listInfixB_of_eq_append (n x y : List Char) : listInfixB n (x ++ (n ++ y)) = true :=
  listInfixB_append_left x n (n ++ y)
    (listInfixB_of_listPrefixOf n (n ++ y) (listPrefixOf_append n y))

lemma strIncludes_of_data_decomp (s t : String) (x y : List Char)
    (heq : s.data = x ++ (t.data ++ y)) : strIncludes s t = true := by
  unfold strIncludes
  rw [heq]
  exact listInfixB_of_eq_append t.data x y

lemma joinQuoted_mem_decomp (p : String) :
    ∀ l : List String, p ∈ l →
      ∃ x y, (joinQuoted l).data = x ++ ((quoteStr p).data ++ y) := by
  intro l
  induction l with
  | nil => intro h; simp at h
  | cons q rest ih =>
    intro hmem
    rcases List.mem_cons.mp hmem with h | h
    · cases rest with
      | nil =>
        refine ⟨[], [], ?_⟩
        simp [joinQuoted, h]
      | cons r rs =>
        refine ⟨[], (", " ++ joinQuoted (r :: rs)).data, ?_⟩
        simp [joinQuoted, h, String.data_append, List.append_assoc]
    · rcases ih h with ⟨x, y, hxy⟩
      cases rest with
      | nil => simp at h
      | cons r rs =>
        refine ⟨(quoteStr q ++ ", ").data ++ x, y, ?_⟩
        simp [joinQuoted, String.data_append, hxy, List.append_assoc]

lemma exhaustionMsg_contains_header (ps : List String) :
    strIncludes (exhaustionMsg ps) "No tags found matching any format pattern" = true := by
  have hsplit : ("No tags found matching any format pattern: [" : String).data =
      ("No tags found matching any format pattern" : String).data ++
        (": [" : String).data := by decide
  apply strIncludes_of_data_decomp _ _ []
    ((": [" : String).data ++ ((joinQuoted ps).data ++ (("]. Tried " : String).data ++
      ((natToStr ps.length).data ++ (" pattern(s) in fallback order." : String).data))))
  simp [exhaustionMsg, String.data_append, hsplit, List.append_assoc]

lemma exhaustionMsg_contains_pattern (ps : List String) (p : String) (h : p ∈ ps) :
    strIncludes (exhaustionMsg ps) (quoteStr p) = true := by
  rcases joinQuoted_mem_decomp p ps h with ⟨x, y, hxy⟩
  apply strIncludes_of_data_decomp _ _
    (("No tags found matching any format pattern: [" : String).data ++ x)
    (y ++ (("]. Tried " : String).data ++
      ((natToStr ps.length).data ++ (" pattern(s) in fallback order." : String).data)))
  simp [exhaustionMsg, String.data_append, hxy, List.append_assoc]

lemma exhaustionMsg_contains_count (ps : List String) :
    strIncludes (exhaustionMsg ps) (natToStr ps.length ++ " pattern(s)") = true := by
  have hsplit : (" pattern(s) in fallback order." : String).data =
      (" pattern(s)" : String).data ++ (" in fallback order." : String).data := by decide
  apply strIncludes_of_data_decomp _ _
    (("No tags found matching any format pattern: [" : String).data ++
      ((joinQuoted ps).data ++ ("]. Tried " : String).data))
    ((" in fallback order." : String).data)
  simp [exhaustionMsg, String.data_append, hsplit, List.append_assoc]

end StringLemmas

section FallbackLemmas

variable (rt : String → String → Bool)

lemma fallbackGo_exhaust (names : List String) :
    ∀ ps : List String, (∀ p ∈ ps, filterTagsByFormat rt names p = []) →
      fallbackGo rt names ps = none := by
  intro ps
  induction ps with
  | nil => intro _; rfl
  | cons p ps ih =>
    intro h
    have hp : filterTagsByFormat rt names p = [] := h p (List.mem_cons_self p ps)
    simp only [fallbackGo, hp]
    simp only [List.length_nil, gt_iff_lt, Nat.lt_irrefl, if_false]
    exact ih fun q hq => h q (List.mem_cons_of_mem p hq)

lemma fallbackGo_first (names : List String) :
    ∀ (ps : List String) (i : Nat) (hi : i < ps.length),
      (∀ (j : Nat) (hj : j < ps.length), j < i →
        filterTagsByFormat rt names (ps.get ⟨j, hj⟩) = []) →
      filterTagsByFormat rt names (ps.get ⟨i, hi⟩) ≠ [] →
      fallbackGo rt names ps = some (filterTagsByFormat rt names (ps.get ⟨i, hi⟩)) := by
  intro ps
  induction ps with
  | nil => intro i hi; simp at hi
  | cons p ps ih =>
    intro i hi hpre hne
    cases i with
    | zero =>
      simp only [List.get] at hne ⊢
      simp only [fallbackGo]
      rw [if_pos (List.length_pos.mpr hne)]
    | succ i' =>
      have h0 : filterTagsByFormat rt names p = [] := by
        have := hpre 0 (by simp) (Nat.succ_pos i')
        simpa using this
      simp only [fallbackGo, h0]
      simp only [List.length_nil, gt_iff_lt, Nat.lt_irrefl, if_false]
      simp only [List.get] at hne ⊢
      exact ih i' (Nat.lt_of_succ_lt_succ hi)
        (fun j hj hji => by
          have := hpre (j + 1) (Nat.succ_lt_succ hj) (Nat.succ_lt_succ hji)
          simpa using this)
        hne

end FallbackLemmas

/-- C2: the claim states that compiling a simple pattern escapes the dots so
that they match only literal `.` characters, and that consequently
`matchTagFormat("123", "X.X")` is false.  The code does not escape dots:
`format.replace(/X/gi, '\\d+')` substitutes only `X`, so `"X.X"` compiles to
`^\d+.\d+$` in which `.` matches any character, and `"123"` (middle character
a digit) does match — contradicting the claim and the function's own doc
comment (`"X.X" → /^\d+\.\d+$/`, "Escape dots to match literal dots"). -/
theorem c2_dot_unescaped_counterexample :
    isSimplePattern "X.X" = true ∧
    matchTagFormat (fun _ _ => false) "123" "X.X" = true ∧
    matchTagFormat (fun _ _ => false) "1x3" "X.X" = true := by
  refine ⟨by decide, by decide, by decide⟩

/-- C1: the claim states that a fast-path pattern-exhaustion failure is
propagated immediately, without falling through to the full dated fetch.
In the code the catch re-throws only when the message contains
`'No tags found matching format pattern'`, but the thrown message reads
`'No tags found matching any format pattern: ...'` (extra word "any"), so the
check never fires: the fast path throws the exhaustion error (first
conjunct), the substring check misses it (second conjunct), and the resolver
falls through to the full dated fetch — whose failure it then reports
(third conjunct), instead of the exhaustion error. -/
theorem c1_exhaustion_not_rethrown :
    fastPath (fun _ _ => false)
      { getAllTagNames := Except.ok ["edge-1"],
        getAllTags := Except.error "full fetch failed",
        getAllReleases := Except.ok [] } (some ["X.X"]) =
      Except.error (exhaustionMsg ["X.X"]) ∧
    strIncludes (exhaustionMsg ["X.X"]) "No tags found matching format pattern" = false ∧
    resolveLatestTag (fun _ _ => false) (fun _ => 0)
      { getAllTagNames := Except.ok ["edge-1"],
        getAllTags := Except.error "full fetch failed",
        getAllReleases := Except.ok [] }
      (TagFormatArg.list ["X.X"]) ItemType.tags = Except.error "full fetch failed" :=
  ⟨rfl, by decide, rfl⟩

/-- C5: a simple pattern accepts a name by full-string match or by matching
its numeric prefix, so non-numeric suffixes after the matched prefix are
accepted while a wrong number of dotted groups is rejected:
`matchTagFormat("3.23-bae0df8a-ls3", "X.X")` and `matchTagFormat("3.23", "X.X")`
are true while `matchTagFormat("10.5.0", "X.X")` is false — for any regex
engine, since the simple branch never consults it. -/
theorem c5_simple_pattern_suffix_and_arity (regexTest : String → String → Bool) :
    matchTagFormat regexTest "3.23-bae0df8a-ls3" "X.X" = true ∧
    matchTagFormat regexTest "3.23" "X.X" = true ∧
    matchTagFormat regexTest "10.5.0" "X.X" = false :=
  ⟨rfl, rfl, rfl⟩

/-- C6: the `v` prefix of a simple pattern is a required, case-sensitively
matched literal: `v1.2.3` matches `vX.X.X`, while `1.2.3` (missing prefix)
and `V1.2.3` (uppercase) do not. -/
theorem c6_v_prefix_required_case_sensitive (regexTest : String → String → Bool) :
    matchTagFormat regexTest "v1.2.3" "vX.X.X" = true ∧
    matchTagFormat regexTest "1.2.3" "vX.X.X" = false ∧
    matchTagFormat regexTest "V1.2.3" "vX.X.X" = false :=
  ⟨rfl, rfl, rfl⟩

/-- C7: the pattern `"X"` is classified neither as simple (the classifier
requires at least one `.X` group) nor as regex, so it is matched as a
literal: `matchTagFormat(name, "X")` holds exactly when `name` is the string
`"X"`, with no numeric-prefix fallback. -/
theorem c7_pattern_X_is_literal (regexTest : String → String → Bool) (name : String) :
    isSimplePattern "X" = false ∧ isRegexPattern "X" = false ∧
    (matchTagFormat regexTest name "X" = true ↔ name = "X") := by
  refine ⟨by decide, by decide, ?_⟩
  by_cases hn : name = ""
  · subst hn
    simp [matchTagFormat]
  · have hS : isSimplePattern "X" = false := by decide
    have hR : isRegexPattern "X" = false := by decide
    simp [matchTagFormat, hn, hS, hR]

/-- C8: `filterTagsByFormat` is idempotent — filtering twice with the same
pattern equals filtering once, for every name list and every pattern. -/
theorem c8_filter_idempotent (regexTest : String → String → Bool)
    (xs : List String) (p : String) :
    filterTagsByFormat regexTest (filterTagsByFormat regexTest xs p) p =
      filterTagsByFormat regexTest xs p := by
  unfold filterTagsByFormat
  by_cases hp : p = ""
  · simp [hp]
  · simp [hp, List.filter_filter]

/-- C4: pattern fallback filtering returns `filterTagsByFormat names p` for
the first pattern `p` whose filtered list is non-empty (later patterns never
influence the result), and when every pattern yields an empty list it fails
with the pattern-exhaustion error, whose message contains
"No tags found matching any format pattern", contains every attempted
pattern (quoted, enumerated in order by `exhaustionMsg`), and states the
count of patterns tried. -/
theorem c4_fallback_first_win_and_exhaustion (rt : String → String → Bool)
    (names patterns : List String) (_hne : patterns ≠ []) :
    (∀ (i : Nat) (hi : i < patterns.length),
      (∀ (j : Nat) (hj : j < patterns.length), j < i →
        filterTagsByFormat rt names (patterns.get ⟨j, hj⟩) = []) →
      filterTagsByFormat rt names (patterns.get ⟨i, hi⟩) ≠ [] →
      filterTagsWithFallback rt names patterns =
        Except.ok (filterTagsByFormat rt names (patterns.get ⟨i, hi⟩))) ∧
    ((∀ p ∈ patterns, filterTagsByFormat rt names p = []) →
      filterTagsWithFallback rt names patterns = Except.error (exhaustionMsg patterns) ∧
      strIncludes (exhaustionMsg patterns) "No tags found matching any format pattern" = true ∧
      (∀ p ∈ patterns, strIncludes (exhaustionMsg patterns) (quoteStr p) = true) ∧
      strIncludes (exhaustionMsg patterns) (natToStr patterns.length ++ " pattern(s)") = true) := by
  constructor
  · intro i hi hpre hnei
    unfold filterTagsWithFallback
    rw [fallbackGo_first rt names patterns i hi hpre hnei]
  · intro hall
    refine ⟨?_, exhaustionMsg_contains_header patterns,
      fun p hp => exhaustionMsg_contains_pattern patterns p hp,
      exhaustionMsg_contains_count patterns⟩
    unfold filterTagsWithFallback
    rw [fallbackGo_exhaust rt names patterns hall]

/-- Witness for C4 at the spec's own example: with names
`["3.19", "3.18", "edge-x"]` and patterns `["X.X.X", "X.X"]`, the first
pattern matches nothing, so the second wins with `["3.19", "3.18"]`. -/
theorem c4_witness :
    (["X.X.X", "X.X"] : List String) ≠ [] ∧
    filterTagsWithFallback (fun _ _ => false) ["3.19", "3.18", "edge-x"] ["X.X.X", "X.X"] =
      Except.ok ["3.19", "3.18"] := by
  refine ⟨by decide, ?_⟩
  have h1 := (c4_fallback_first_win_and_exhaustion (fun _ _ => false)
      ["3.19", "3.18", "edge-x"] ["X.X.X", "X.X"] (by decide)).1 1 (by decide)
      (by
        intro j hj hj1
        have hj0 : j = 0 := by omega
        subst hj0
        show filterTagsByFormat (fun _ _ => false) ["3.19", "3.18", "edge-x"] "X.X.X" = []
        decide)
      (by decide)
  rw [h1]
  rfl

/-- C9: an empty candidate source is always fatal — with itemType `tags` the
resolver rejects with "No tags found in repository" (the fast-path empty
error is swallowed by the catch, but the full dated fetch re-raises the same
message), and with itemType `release` it rejects with
"No releases found in repository"; the messages contain "No tags found" and
"No releases found" respectively. -/
theorem c9_empty_source_fatal (rt : String → String → Bool) (pd : String → Int)
    (api : PlatformAPI) (fmt : TagFormatArg) :
    (api.getAllTagNames = Except.ok [] → api.getAllTags = Except.ok [] →
      resolveLatestTag rt pd api fmt ItemType.tags =
        Except.error "No tags found in repository" ∧
      strIncludes "No tags found in repository" "No tags found" = true) ∧
    (api.getAllReleases = Except.ok [] →
      resolveLatestTag rt pd api fmt ItemType.release =
        Except.error "No releases found in repository" ∧
      strIncludes "No releases found in repository" "No releases found" = true) := by
  constructor
  · intro h1 h2
    refine ⟨?_, by decide⟩
    unfold resolveLatestTag fastPath fullPath
    simp only [h1, h2]
    rfl
  · intro h3
    refine ⟨?_, by decide⟩
    unfold resolveLatestTag fullPath
    simp only [h3]
    rfl

/-- Witness for C9 on a data source whose every fetch returns zero
candidates. -/
theorem c9_witness :
    resolveLatestTag (fun _ _ => false) (fun _ => 0)
      { getAllTagNames := Except.ok [], getAllTags := Except.ok [],
        getAllReleases := Except.ok [] } TagFormatArg.absent ItemType.tags =
      Except.error "No tags found in repository" ∧
    resolveLatestTag (fun _ _ => false) (fun _ => 0)
      { getAllTagNames := Except.ok [], getAllTags := Except.ok [],
        getAllReleases := Except.ok [] } TagFormatArg.absent ItemType.release =
      Except.error "No releases found in repository" :=
  ⟨((c9_empty_source_fatal (fun _ _ => false) (fun _ => 0)
      { getAllTagNames := Except.ok [], getAllTags := Except.ok [],
        getAllReleases := Except.ok [] } TagFormatArg.absent).1 rfl rfl).1,
   ((c9_empty_source_fatal (fun _ _ => false) (fun _ => 0)
      { getAllTagNames := Except.ok [], getAllTags := Except.ok [],
        getAllReleases := Except.ok [] } TagFormatArg.absent).2 rfl).1⟩

/-- C10: with `tagFormat` equal to the empty array, a data source with at
least one candidate always ends in the pattern-exhaustion rejection
`exhaustionMsg []` (for tags the fast-path exhaustion is caught by the
substring check and the full dated fetch re-raises the same error; for
releases the full path raises it directly); the message contains
"No tags found matching any format pattern" and "Tried 0 pattern(s)", and
the empty array normalizes to `some []` (a filter that can never succeed)
while an absent `tagFormat` normalizes to `none` (no filtering). -/
theorem c10_empty_format_array_exhausts (rt : String → String → Bool)
    (pd : String → Int) (api : PlatformAPI) :
    (∀ names, api.getAllTagNames = Except.ok names → names ≠ [] →
      ∀ items, api.getAllTags = Except.ok items → items ≠ [] →
      resolveLatestTag rt pd api (TagFormatArg.list []) ItemType.tags =
        Except.error (exhaustionMsg [])) ∧
    (∀ items, api.getAllReleases = Except.ok items → items ≠ [] →
      resolveLatestTag rt pd api (TagFormatArg.list []) ItemType.release =
        Except.error (exhaustionMsg [])) ∧
    strIncludes (exhaustionMsg []) "No tags found matching any format pattern" = true ∧
    strIncludes (exhaustionMsg []) "Tried 0 pattern(s)" = true ∧
    normalizeFormat (TagFormatArg.list []) = some [] ∧
    normalizeFormat TagFormatArg.absent = none := by
  refine ⟨?_, ?_, by decide, by decide, rfl, rfl⟩
  · intro names h1 hn items h2 hi
    unfold resolveLatestTag fastPath fullPath
    simp only [h1, h2, normalizeFormat]
    rw [if_neg (by simpa [List.length_eq_zero] using hn),
      if_neg (by simpa [List.length_eq_zero] using hi)]
    rfl
  · intro items h3 hi
    unfold resolveLatestTag fullPath
    simp only [h3, normalizeFormat]
    rw [if_neg (by simpa [List.length_eq_zero] using hi)]
    rfl

/-- Witness for C10 on a one-candidate source. -/
theorem c10_witness :
    resolveLatestTag (fun _ _ => false) (fun _ => 0)
      { getAllTagNames := Except.ok ["edge-1"],
        getAllTags := Except.ok [⟨"edge-1", "2024-01-01"⟩],
        getAllReleases := Except.ok [⟨"edge-1", "2024-01-01"⟩] }
      (TagFormatArg.list []) ItemType.tags = Except.error (exhaustionMsg []) ∧
    resolveLatestTag (fun _ _ => false) (fun _ => 0)
      { getAllTagNames := Except.ok ["edge-1"],
        getAllTags := Except.ok [⟨"edge-1", "2024-01-01"⟩],
        getAllReleases := Except.ok [⟨"edge-1", "2024-01-01"⟩] }
      (TagFormatArg.list []) ItemType.release = Except.error (exhaustionMsg []) :=
  ⟨(c10_empty_format_array_exhausts (fun _ _ => false) (fun _ => 0)
      { getAllTagNames := Except.ok ["edge-1"],
        getAllTags := Except.ok [⟨"edge-1", "2024-01-01"⟩],
        getAllReleases := Except.ok [⟨"edge-1", "2024-01-01"⟩] }).1
      ["edge-1"] rfl (by decide) [⟨"edge-1", "2024-01-01"⟩] rfl (by decide),
   (c10_empty_format_array_exhausts (fun _ _ => false) (fun _ => 0)
      { getAllTagNames := Except.ok ["edge-1"],
        getAllTags := Except.ok [⟨"edge-1", "2024-01-01"⟩],
        getAllReleases := Except.ok [⟨"edge-1", "2024-01-01"⟩] }).2.1
      [⟨"edge-1", "2024-01-01"⟩] rfl (by decide)⟩

/-- C3: on the full dated-fetch path (taken directly for itemType `release`,
first conjunct) the selection over a non-empty filtered candidate list is:
if any candidate name is semver-like, the head of the semver-descending sort
of the semver-like names; otherwise, if any candidate has a non-empty date, a
candidate of maximal parsed date (the head of the date-descending sort);
otherwise, the lexicographically greatest name (the last element of the
ascending lexical sort), where `parseDate` abstracts the JavaScript
`new Date(...).getTime()`. -/
theorem c3_full_fetch_selection_policy (rt : String → String → Bool) (pd : String → Int)
    (api : PlatformAPI) (fmt : TagFormatArg) (filteredItems : List TagItem)
    (hne : filteredItems ≠ []) :
    resolveLatestTag rt pd api fmt ItemType.release =
      fullPath rt pd api (normalizeFormat fmt) ItemType.release ∧
    ((filteredItems.filter fun it => isSemver it.name) ≠ [] →
      selectLatest pd filteredItems =
        (sortTagsBySemver
          ((filteredItems.filter fun it => isSemver it.name).map TagItem.name)).headD "") ∧
    ((filteredItems.filter fun it => isSemver it.name) = [] →
      ((filteredItems.filter fun it => it.date ≠ "") ≠ [] →
        ∃ w ∈ filteredItems.filter fun it => it.date ≠ "",
          selectLatest pd filteredItems = w.name ∧
          ∀ it ∈ filteredItems.filter fun it => it.date ≠ "", pd it.date ≤ pd w.date) ∧
      ((filteredItems.filter fun it => it.date ≠ "") = [] →
        ∃ w ∈ filteredItems.map TagItem.name,
          selectLatest pd filteredItems = w ∧
          ∀ n ∈ filteredItems.map TagItem.name, charListLe n.data w.data = true)) := by
  refine ⟨rfl, ?_, ?_⟩
  · intro hsem
    unfold selectLatest
    rw [if_pos (List.length_pos.mpr hsem)]
  · intro hsem
    constructor
    · intro hdated
      unfold selectLatest
      rw [if_neg (by simp [hsem]), if_pos (List.length_pos.mpr hdated)]
      have htrans : ∀ a b c : TagItem,
          (fun a b : TagItem => decide (pd b.date ≤ pd a.date)) a b = true →
          (fun a b : TagItem => decide (pd b.date ≤ pd a.date)) b c = true →
          (fun a b : TagItem => decide (pd b.date ≤ pd a.date)) a c = true := by
        intro a b c h1 h2
        simp only [decide_eq_true_eq] at h1 h2 ⊢
        exact le_trans h2 h1
      have htotal : ∀ a b : TagItem,
          ((fun a b : TagItem => decide (pd b.date ≤ pd a.date)) a b ||
            (fun a b : TagItem => decide (pd b.date ≤ pd a.date)) b a) = true := by
        intro a b
        simp only [Bool.or_eq_true, decide_eq_true_eq]
        exact (le_total (pd b.date) (pd a.date)).imp id id
      obtain ⟨hmem, hmax⟩ := mergeSort_headD_le
        (fun a b : TagItem => decide (pd b.date ≤ pd a.date)) htrans htotal
        (filteredItems.filter fun it => it.date ≠ "") hdated ⟨"", ""⟩
      refine ⟨_, hmem, rfl, ?_⟩
      intro it hit
      have := hmax it hit
      simpa using this
    · intro hdated
      unfold selectLatest
      rw [if_neg (by rw [hsem]; simp), if_neg (by rw [hdated]; simp)]
      have hmapne : filteredItems.map TagItem.name ≠ [] := by
        simpa [List.map_eq_nil_iff] using hne
      have htrans : ∀ a b c : String,
          (fun a b : String => charListLe a.data b.data) a b = true →
          (fun a b : String => charListLe a.data b.data) b c = true →
          (fun a b : String => charListLe a.data b.data) a c = true := by
        intro a b c h1 h2
        exact charListLe_trans a.data b.data c.data h1 h2
      have htotal : ∀ a b : String,
          ((fun a b : String => charListLe a.data b.data) a b ||
            (fun a b : String => charListLe a.data b.data) b a) = true := by
        intro a b
        exact charListLe_total a.data b.data
      obtain ⟨hmem, hmax⟩ := mergeSort_getLastD_le
        (fun a b : String => charListLe a.data b.data) htrans htotal
        (filteredItems.map TagItem.name) hmapne ""
      exact ⟨_, hmem, rfl, fun n hn => hmax n hn⟩

/-- Witness for C3 on the one-candidate list `[("tag-a", "")]` (no semver
name, no date: the lexical branch applies). -/
theorem c3_witness :
    ([(⟨"tag-a", ""⟩ : TagItem)] ≠ []) ∧
    (resolveLatestTag (fun _ _ => false) (fun _ => 0)
        { getAllTagNames := Except.ok [], getAllTags := Except.ok [],
          getAllReleases := Except.ok [] } TagFormatArg.absent ItemType.release =
      fullPath (fun _ _ => false) (fun _ => 0)
        { getAllTagNames := Except.ok [], getAllTags := Except.ok [],
          getAllReleases := Except.ok [] } (normalizeFormat TagFormatArg.absent)
        ItemType.release ∧
    (([(⟨"tag-a", ""⟩ : TagItem)].filter fun it => isSemver it.name) ≠ [] →
      selectLatest (fun _ => 0) [⟨"tag-a", ""⟩] =
        (sortTagsBySemver
          (([(⟨"tag-a", ""⟩ : TagItem)].filter fun it => isSemver it.name).map
            TagItem.name)).headD "") ∧
    (([(⟨"tag-a", ""⟩ : TagItem)].filter fun it => isSemver it.name) = [] →
      (([(⟨"tag-a", ""⟩ : TagItem)].filter fun it => it.date ≠ "") ≠ [] →
        ∃ w ∈ [(⟨"tag-a", ""⟩ : TagItem)].filter fun it => it.date ≠ "",
          selectLatest (fun _ => 0) [⟨"tag-a", ""⟩] = w.name ∧
          ∀ it ∈ [(⟨"tag-a", ""⟩ : TagItem)].filter fun it => it.date ≠ "",
            (fun _ => (0 : Int)) it.date ≤ (fun _ => (0 : Int)) w.date) ∧
      (([(⟨"tag-a", ""⟩ : TagItem)].filter fun it => it.date ≠ "") = [] →
        ∃ w ∈ [(⟨"tag-a", ""⟩ : TagItem)].map TagItem.name,
          selectLatest (fun _ => 0) [⟨"tag-a", ""⟩] = w ∧
          ∀ n ∈ [(⟨"tag-a", ""⟩ : TagItem)].map TagItem.name,
            charListLe n.data w.data = true))) :=
  ⟨by decide,
   c3_full_fetch_selection_policy (fun _ _ => false) (fun _ => 0)
     { getAllTagNames := Except.ok [], getAllTags := Except.ok [],
       getAllReleases := Except.ok [] } TagFormatArg.absent [⟨"tag-a", ""⟩] (by decide)⟩

